import Mathlib

/-!
Verification of the batch task-processing pipeline of the `tod` command-line
client (file `src/lists.rs`).  The operations `view`, `prioritize`, `timebox`,
`process`, `label` and the file importer are embedded shallowly: the remote
gateway, the interactive per-task walker, configuration reloading and the
spawn/join behaviour of the comment fetcher are oracles collected in an
environment record, and every operation returns its result together with the
ordered trace of observable effects (fetches, walker invocations, printed
diagnostics, dispatched-handle joins, quick-create calls).
-/

namespace Tod

deriving instance DecidableEq for Except

/-- A project reference.  Its display form (name plus web URL) is modelled
from the spec, since `projects.rs` is outside the examined source. -/
structure Project where
  name : String
  url : String
deriving DecidableEq, Repr

/-- Task priority scale, `Priority::None` being the unset value. -/
inductive Priority where
  | none
  | low
  | medium
  | high
deriving DecidableEq, Repr

/-- A task as fetched from the gateway. -/
structure Task where
  id : String
  content : String
  priority : Priority
  duration : Option Nat
  due : Option Int
  parentId : Option String
deriving DecidableEq, Repr

/-- A comment on a task. -/
structure Comment where
  content : String
deriving DecidableEq, Repr

/-- Gateway error carrying a message and a source label,
mirroring `Error { message, source }`. -/
structure Error where
  message : String
  source : String
deriving DecidableEq, Repr

/-- Configuration object.  Its contents are irrelevant to the claims; the
generation counter lets distinct reload states be told apart. -/
structure Config where
  gen : Nat
deriving DecidableEq, Repr

/-- An already-dispatched asynchronous mutation handle. -/
structure Handle where
  hid : Nat
deriving DecidableEq, Repr

/-- The selector: `Flag::Project` or `Flag::Filter` from `lists.rs`. -/
inductive Flag where
  | project (p : Project)
  | filter (f : String)
deriving DecidableEq, Repr

/-- The single-quote character, used by the `Display` instance of `Flag`. -/
def singleQuote : String := String.singleton (Char.ofNat 39)

/-- Display form of a selector: the filter string quoted in single quotes
(from `lists.rs`); a project renders as its name plus web URL (modelled from
the spec, `projects.rs` being outside the examined source). -/
def Flag.display : Flag → String
  | .project p => p.name ++ "\n" ++ p.url
  | .filter f => singleQuote ++ f ++ singleQuote

/-- Modelled from the spec: terminal colour styling is presentation-only and
out of scope, so `color::green_string` is the identity on strings. -/
def green_string (s : String) : String := s

/-- Modelled from the spec: a `SortOrder` selects a comparison key for the
Sort Engine (`tasks.rs` is outside the examined source). -/
structure SortOrder where
  key : Task → Int

/-- Stable insertion of a task into a key-sorted list. -/
def insertByKey (k : Task → Int) (t : Task) : List Task → List Task
  | [] => [t]
  | u :: us => if k t ≤ k u then t :: u :: us else u :: insertByKey k t us

/-- Modelled from the spec: the Sort Engine is a stable sort of the task
sequence by the selected key (`tasks::sort` lives outside the examined
source). -/
def tasks_sort (so : SortOrder) : List Task → List Task
  | [] => []
  | t :: ts => insertByKey so.key t (tasks_sort so ts)

/-- Observable effects of a run, in order of occurrence. -/
inductive Event where
  | fetchProject (p : Project)
  | fetchFilter (f : String)
  | fetchComments (t : Task)
  | printDiag (s : String)
  | fmtCall (t : Task)
  | setPriorityCall (c : Config) (t : Task)
  | timeboxCall (c : Config) (t : Task)
  | processCall (c : Config) (t : Task) (comments : List Comment) (withProject : Bool)
  | labelCall (c : Config) (t : Task) (labels : List String)
  | joinAll (hs : List Handle)
  | quickCreate (line : String)
deriving DecidableEq, Repr

/-- Environment of oracles: the remote gateway (`todoist.rs`), the per-task
walkers (`tasks.rs`), configuration reloading (`config.rs`) and the tokio
spawn/join outcome — all collaborators outside `lists.rs`.  `today` fixes the
date used by the future-date filter. -/
structure Env where
  tasksByProject : Config → Project → Except Error (List Task)
  tasksByFilters : Config → String → Except Error (List (String × List Task))
  comments : Config → Task → Except Error (List Comment)
  spawnOk : Task → Bool
  reload : Config → Except Error Config
  fmtTask : Config → Task → Except Error String
  setPriority : Config → Task → Bool → Except Error Handle
  timeboxTask : Config → Task → Int → Bool → Except Error (Option Handle)
  processTask : List Comment → Config → Task → Int → Bool → Except Error (Option Handle)
  labelTask : Config → Task → List String → Except Error Handle
  quickCreate : Config → String → Except Error Unit
  today : Int

/-- The fetch event a selector produces. -/
def fetchEvent : Flag → Event
  | .project p => .fetchProject p
  | .filter f => .fetchFilter f

/-- Flattening of filter groups, as done by the
`flat_map(|(_, tasks)| tasks.to_owned())` chains in `lists.rs`. -/
def flattenGroups : List (String × List Task) → List Task
  | [] => []
  | g :: gs => g.2 ++ flattenGroups gs

/-- A task is not scheduled for a future date: it has no due date or its due
date is not after today. -/
def notInFuture (today : Int) (t : Task) : Bool :=
  match t.due with
  | Option.none => true
  | Option.some d => decide (d ≤ today)

/-- Modelled from the spec: `tasks::filter_not_in_future` (outside the
examined source) keeps only tasks not scheduled for a future date. -/
def filter_not_in_future (today : Int) (ts : List Task) : List Task :=
  ts.filter (notInFuture today)

/-- Modelled from the spec: `tasks::reject_parent_tasks` (outside the
examined source) excludes every task that some task of the set references as
its parent. -/
def reject_parent_tasks (ts : List Task) : List Task :=
  ts.filter (fun t => !(ts.any (fun u => decide (u.parentId = Option.some t.id))))

/-- Task set fetched and pre-filtered by `prioritize`: the project branch
keeps only tasks with unset priority; the filter branch flattens the groups
without any priority filtering. -/
def prioritizeTasks (env : Env) (cfg : Config) : Flag → Except Error (List Task)
  | .project p =>
    match env.tasksByProject cfg p with
    | .ok ts => .ok (ts.filter (fun t => decide (t.priority = Priority.none)))
    | .error e => .error e
  | .filter f =>
    match env.tasksByFilters cfg f with
    | .ok gs => .ok (flattenGroups gs)
    | .error e => .error e

/-- The sequential walk of `prioritize`: one `tasks::set_priority` call per
task with the operation's own configuration, handles accumulated. -/
def prioritizeWalk (env : Env) (cfg : Config) :
    List Task → List Handle → Except Error (List Handle) × List Event
  | [], hs => (.ok hs, [])
  | t :: ts, hs =>
    match env.setPriority cfg t true with
    | .error e => (.error e, [.setPriorityCall cfg t])
    | .ok h =>
      let r := prioritizeWalk env cfg ts (hs ++ [h])
      (r.1, .setPriorityCall cfg t :: r.2)

/-- The `prioritize` operation. -/
def prioritize (env : Env) (cfg : Config) (flag : Flag) (so : SortOrder) :
    Except Error String × List Event :=
  match prioritizeTasks env cfg flag with
  | .error e => (.error e, [fetchEvent flag])
  | .ok ts =>
    if ts.isEmpty then
      (.ok (green_string ("No tasks for " ++ flag.display)), [fetchEvent flag])
    else
      match prioritizeWalk env cfg (tasks_sort so ts) [] with
      | (.error e, evs) => (.error e, fetchEvent flag :: evs)
      | (.ok hs, evs) =>
        (.ok (green_string ("Successfully prioritized " ++ flag.display)),
         (fetchEvent flag :: evs) ++ [.joinAll hs])

/-- Task set fetched and pre-filtered by `timebox`: the project branch keeps
only tasks without a duration; the filter branch flattens the groups without
any duration filtering. -/
def timeboxTasks (env : Env) (cfg : Config) : Flag → Except Error (List Task)
  | .project p =>
    match env.tasksByProject cfg p with
    | .ok ts => .ok (ts.filter (fun t => t.duration.isNone))
    | .error e => .error e
  | .filter f =>
    match env.tasksByFilters cfg f with
    | .ok gs => .ok (flattenGroups gs)
    | .error e => .error e

/-- Outcome of an interactive walk: user abort or completion with the
accumulated mutation handles. -/
inductive WalkOutcome where
  | exited
  | completed (hs : List Handle)
deriving DecidableEq, Repr

/-- The sequential walk of `timebox`: the configuration is reloaded before
each task, `tasks::timebox_task` either queues a handle or signals abort. -/
def timeboxWalk (env : Env) (cfg : Config) :
    List Task → Int → List Handle → Except Error WalkOutcome × List Event
  | [], _, hs => (.ok (.completed hs), [])
  | t :: ts, n, hs =>
    match env.reload cfg with
    | .error e => (.error e, [])
    | .ok c =>
      match env.timeboxTask c t n false with
      | .error e => (.error e, [.timeboxCall c t])
      | .ok Option.none => (.ok .exited, [.timeboxCall c t])
      | .ok (Option.some h) =>
        let r := timeboxWalk env cfg ts (n - 1) (hs ++ [h])
        (r.1, .timeboxCall c t :: r.2)

/-- The `timebox` operation. -/
def timebox (env : Env) (cfg : Config) (flag : Flag) (so : SortOrder) :
    Except Error String × List Event :=
  match timeboxTasks env cfg flag with
  | .error e => (.error e, [fetchEvent flag])
  | .ok ts =>
    if ts.isEmpty then
      (.ok (green_string ("No tasks for " ++ flag.display)), [fetchEvent flag])
    else
      let sorted := tasks_sort so ts
      match timeboxWalk env cfg sorted (sorted.length : Int) [] with
      | (.error e, evs) => (.error e, fetchEvent flag :: evs)
      | (.ok .exited, evs) => (.ok (green_string "Exited"), fetchEvent flag :: evs)
      | (.ok (.completed hs), evs) =>
        (.ok (green_string ("Successfully timeboxed " ++ flag.display)),
         (fetchEvent flag :: evs) ++ [.joinAll hs])

/-- Branch-specific fetch of `process`: the project branch applies the
future-date filter; the filter branch flattens the groups without it. -/
def processBranch (env : Env) (cfg : Config) : Flag → Except Error (List Task)
  | .project p =>
    match env.tasksByProject cfg p with
    | .ok ts => .ok (filter_not_in_future env.today ts)
    | .error e => .error e
  | .filter f =>
    match env.tasksByFilters cfg f with
    | .ok gs => .ok (flattenGroups gs)
    | .error e => .error e

/-- The show-project flag of `process`: false for a project selector, true
for a filter selector. -/
def processWithProject : Flag → Bool
  | .project _ => false
  | .filter _ => true

/-- Task set walked by `process`: branch-specific fetch followed by
parent-task rejection, both before the empty check and the sort. -/
def processTasks (env : Env) (cfg : Config) (flag : Flag) : Except Error (List Task) :=
  match processBranch env cfg flag with
  | .ok ts => .ok (reject_parent_tasks ts)
  | .error e => .error e

/-- One entry of the comment-fetch fan-out: a join error of the spawned unit,
or the task paired with its comment-fetch outcome. -/
abbrev FetchResult := Except Unit (Task × Except Error (List Comment))

/-- The Concurrent Comment Fetcher: one spawned fetch per task, joined in
input order; each entry is the task with its fetch outcome, or a join error
when the spawned unit itself failed. -/
def fetch_comments_for_tasks (env : Env) (cfg : Config) : List Task → List FetchResult
  | [] => []
  | t :: ts =>
    (if env.spawnOk t then Except.ok (t, env.comments cfg t) else Except.error ()) ::
      fetch_comments_for_tasks env cfg ts

/-- Diagnostic printed when a comment fetch returns an application error. -/
def diagMsg (e : Error) : String :=
  "Could not fetch comments from " ++ e.source ++ ": " ++ e.message

/-- The sequential walk of `process` over the comment-fetch results: on a
successful fetch the task is walked with its comments and the operation's
show-project flag; on a fetch error a diagnostic is printed and the task is
walked with no comments and the flag false; on a join error the task is
skipped.  The configuration is reloaded before each walked task. -/
def processWalk (env : Env) (cfg : Config) (wp : Bool) :
    List FetchResult → Int → List Handle → Except Error WalkOutcome × List Event
  | [], _, hs => (.ok (.completed hs), [])
  | Except.ok (t, Except.ok cms) :: rest, n, hs =>
    match env.reload cfg with
    | .error e => (.error e, [])
    | .ok c =>
      match env.processTask cms c t n wp with
      | .error e => (.error e, [.processCall c t cms wp])
      | .ok Option.none => (.ok .exited, [.processCall c t cms wp])
      | .ok (Option.some h) =>
        let r := processWalk env cfg wp rest (n - 1) (hs ++ [h])
        (r.1, .processCall c t cms wp :: r.2)
  | Except.ok (t, Except.error err) :: rest, n, hs =>
    match env.reload cfg with
    | .error e => (.error e, [.printDiag (diagMsg err)])
    | .ok c =>
      match env.processTask [] c t n false with
      | .error e => (.error e, [.printDiag (diagMsg err), .processCall c t [] false])
      | .ok Option.none =>
        (.ok .exited, [.printDiag (diagMsg err), .processCall c t [] false])
      | .ok (Option.some h) =>
        let r := processWalk env cfg wp rest (n - 1) (hs ++ [h])
        (r.1, .printDiag (diagMsg err) :: .processCall c t [] false :: r.2)
  | Except.error _ :: rest, n, hs =>
    let r := processWalk env cfg wp rest n hs
    (r.1, .printDiag "JoinError" :: r.2)

/-- The `process` operation. -/
def process (env : Env) (cfg : Config) (flag : Flag) (so : SortOrder) :
    Except Error String × List Event :=
  match processTasks env cfg flag with
  | .error e => (.error e, [fetchEvent flag])
  | .ok ts =>
    if ts.isEmpty then
      (.ok (green_string ("No tasks for " ++ flag.display)), [fetchEvent flag])
    else
      let sorted := tasks_sort so ts
      let res := fetch_comments_for_tasks env cfg sorted
      match processWalk env cfg (processWithProject flag) res (sorted.length : Int) [] with
      | (.error e, evs) =>
        (.error e, (fetchEvent flag :: sorted.map Event.fetchComments) ++ evs)
      | (.ok .exited, evs) =>
        (.ok (green_string "Exited"),
         (fetchEvent flag :: sorted.map Event.fetchComments) ++ evs)
      | (.ok (.completed hs), evs) =>
        (.ok (green_string ("Successfully processed " ++ flag.display)),
         ((fetchEvent flag :: sorted.map Event.fetchComments) ++ evs) ++ [.joinAll hs])

/-- Task set fetched by `label`: no pre-filtering on either branch. -/
def labelTasksOf (env : Env) (cfg : Config) : Flag → Except Error (List Task)
  | .project p => env.tasksByProject cfg p
  | .filter f =>
    match env.tasksByFilters cfg f with
    | .ok gs => .ok (flattenGroups gs)
    | .error e => .error e

/-- The sequential walk of `label`: one `tasks::label_task` call per task
with the operation's own configuration. -/
def labelWalk (env : Env) (cfg : Config) (labels : List String) :
    List Task → List Handle → Except Error (List Handle) × List Event
  | [], hs => (.ok hs, [])
  | t :: ts, hs =>
    match env.labelTask cfg t labels with
    | .error e => (.error e, [.labelCall cfg t labels])
    | .ok h =>
      let r := labelWalk env cfg labels ts (hs ++ [h])
      (r.1, .labelCall cfg t labels :: r.2)

/-- The `label` operation. -/
def label (env : Env) (cfg : Config) (flag : Flag) (labels : List String)
    (so : SortOrder) : Except Error String × List Event :=
  match labelTasksOf env cfg flag with
  | .error e => (.error e, [fetchEvent flag])
  | .ok ts =>
    if ts.isEmpty then
      (.ok (green_string ("No tasks for " ++ flag.display)), [fetchEvent flag])
    else
      match labelWalk env cfg labels (tasks_sort so ts) [] with
      | (.error e, evs) => (.error e, fetchEvent flag :: evs)
      | (.ok hs, evs) =>
        (.ok (green_string ("Successfully labeled " ++ flag.display)),
         (fetchEvent flag :: evs) ++ [.joinAll hs])

/-- Groups fetched by `view`: a project yields one group labelled by the
project name; a filter yields the gateway's groups unchanged. -/
def viewFetch (env : Env) (cfg : Config) : Flag → Except Error (List (String × List Task))
  | .project p =>
    match env.tasksByProject cfg p with
    | .ok ts => .ok [(p.name, ts)]
    | .error e => .error e
  | .filter f => env.tasksByFilters cfg f

/-- Text of one group's tasks in `view`: a newline then the formatted task,
for each task in order. -/
def viewTasksText (env : Env) (cfg : Config) :
    List Task → Except Error String × List Event
  | [] => (.ok "", [])
  | t :: ts =>
    match env.fmtTask cfg t with
    | .error e => (.error e, [.fmtCall t])
    | .ok s =>
      let r := viewTasksText env cfg ts
      (match r.1 with
       | .error e => .error e
       | .ok rest => .ok ("\n" ++ s ++ rest),
       .fmtCall t :: r.2)

/-- Buffer built by `view` over the fetched groups: per group a newline, the
green group title, a newline, then the sorted tasks' text. -/
def viewGroups (env : Env) (cfg : Config) (so : SortOrder) :
    List (String × List Task) → Except Error String × List Event
  | [] => (.ok "", [])
  | (query, ts) :: gs =>
    let r := viewTasksText env cfg (tasks_sort so ts)
    match r.1 with
    | .error e => (.error e, r.2)
    | .ok body =>
      let rest := viewGroups env cfg so gs
      (match rest.1 with
       | .error e => .error e
       | .ok s =>
         .ok ("\n" ++ green_string ("Tasks for " ++ query) ++ "\n" ++ body ++ s),
       r.2 ++ rest.2)

/-- The `view` operation: no pre-filter and no empty-set check; the buffer is
returned as built. -/
def view (env : Env) (cfg : Config) (flag : Flag) (so : SortOrder) :
    Except Error String × List Event :=
  match viewFetch env cfg flag with
  | .error e => (.error e, [fetchEvent flag])
  | .ok gs =>
    let r := viewGroups env cfg so gs
    (r.1, fetchEvent flag :: r.2)

/-- Splitting a character sequence on newline characters, accumulating the
current line in reverse. -/
def splitNl : List Char → List Char → List String
  | [], acc => [String.mk acc.reverse]
  | ch :: cs, acc =>
    if ch = Char.ofNat 10 then String.mk acc.reverse :: splitNl cs []
    else splitNl cs (ch :: acc)

/-- Non-empty lines of the file content, in file order: split on newlines
and discard empty lines. -/
def nonEmptyLines (content : String) : List String :=
  (splitNl content.data []).filter (fun s => !s.isEmpty)

/-- Sequential quick-create calls of the importer: each line awaited before
the next, a failure aborting the remainder. -/
def importLines (env : Env) (cfg : Config) : List String → Except Error Unit × List Event
  | [] => (.ok (), [])
  | l :: ls =>
    match env.quickCreate cfg l with
    | .error e => (.error e, [.quickCreate l])
    | .ok _ =>
      let r := importLines env cfg ls
      (r.1, .quickCreate l :: r.2)

/-- The importer, given the file content (file reading itself is an external
concern): split into lines, drop empty lines, quick-create each line in
order, and return the confirmation token on full success. -/
def importTasks (env : Env) (cfg : Config) (content : String) :
    Except Error String × List Event :=
  let r := importLines env cfg (nonEmptyLines content)
  match r.1 with
  | .error e => (.error e, r.2)
  | .ok _ => (.ok "✓", r.2)

/-! Concrete fixtures used to evaluate the operations on closed inputs. -/

/-- Sort order with a constant key: every run keeps the fetched order. -/
def so0 : SortOrder := ⟨fun _ => 0⟩

/-- Initial configuration. -/
def cfg0 : Config := ⟨0⟩

/-- Configuration after one reload under a generation-bumping reload. -/
def cfg1 : Config := ⟨1⟩

/-- The project used by the repository's own tests. -/
def proj0 : Project := ⟨"myproject", "https://app.todoist.com/app/project/123"⟩

/-- A gateway error with a source label and a message. -/
def err0 : Error := ⟨"boom", "api"⟩

/-- A comment. -/
def cm0 : Comment := ⟨"a comment"⟩

/-- A task with unset priority, no duration, no due date, no parent. -/
def tPlain : Task := ⟨"t1", "plain", Priority.none, Option.none, Option.none, Option.none⟩

/-- A task with high priority. -/
def tHigh : Task := ⟨"t2", "high prio", Priority.high, Option.none, Option.none, Option.none⟩

/-- A task with an assigned duration. -/
def tDur : Task := ⟨"t3", "with duration", Priority.none, Option.some 30, Option.none, Option.none⟩

/-- A task scheduled for a future date (due 9 with today = 0). -/
def tFut : Task := ⟨"t4", "future", Priority.none, Option.none, Option.some 9, Option.none⟩

/-- A task whose comment fetch returns an application error. -/
def tErr : Task := ⟨"t5", "comment error", Priority.none, Option.none, Option.none, Option.none⟩

/-- First task of the three-task abort scenario. -/
def tA : Task := ⟨"a1", "first", Priority.none, Option.none, Option.none, Option.none⟩

/-- Second task of the three-task abort scenario: the user aborts here. -/
def tB : Task := ⟨"b1", "abort here", Priority.none, Option.none, Option.none, Option.none⟩

/-- Third task of the three-task abort scenario: never walked. -/
def tC : Task := ⟨"c1", "never seen", Priority.none, Option.none, Option.none, Option.none⟩

/-- Base environment: empty fetches, identity reload, every walker action
succeeding with a fixed handle, today = 0. -/
def baseEnv : Env :=
  { tasksByProject := fun _ _ => .ok []
    tasksByFilters := fun _ _ => .ok []
    comments := fun _ _ => .ok []
    spawnOk := fun _ => true
    reload := fun c => .ok c
    fmtTask := fun _ t => .ok t.content
    setPriority := fun _ _ _ => .ok ⟨1⟩
    timeboxTask := fun _ _ _ _ => .ok (Option.some ⟨2⟩)
    processTask := fun _ _ _ _ _ => .ok (Option.some ⟨3⟩)
    labelTask := fun _ _ _ => .ok ⟨4⟩
    quickCreate := fun _ _ => .ok ()
    today := 0 }

/-- Filter fetch returning one group with a high-priority task. -/
def env1 : Env := { baseEnv with tasksByFilters := fun _ _ => .ok [("today", [tHigh])] }

/-- Project fetch returning one unprioritized and one prioritized task. -/
def envP1 : Env := { baseEnv with tasksByProject := fun _ _ => .ok [tPlain, tHigh] }

/-- Filter fetch returning one group with a task that has a duration. -/
def env2 : Env := { baseEnv with tasksByFilters := fun _ _ => .ok [("today", [tDur])] }

/-- Project fetch returning one duration-free and one duration-bearing task. -/
def envP2 : Env := { baseEnv with tasksByProject := fun _ _ => .ok [tPlain, tDur] }

/-- Filter fetch returning one group with a future-scheduled task. -/
def env3 : Env := { baseEnv with tasksByFilters := fun _ _ => .ok [("today", [tFut])] }

/-- Project fetch returning one current and one future-scheduled task. -/
def envP3 : Env := { baseEnv with tasksByProject := fun _ _ => .ok [tPlain, tFut] }

/-- Three project tasks, the walkers signalling user abort on the second. -/
def env5 : Env :=
  { baseEnv with
    tasksByProject := fun _ _ => .ok [tA, tB, tC]
    timeboxTask := fun _ t _ _ =>
      if t.id = "b1" then .ok Option.none else .ok (Option.some ⟨2⟩)
    processTask := fun _ _ t _ _ =>
      if t.id = "b1" then .ok Option.none else .ok (Option.some ⟨3⟩) }

/-- Comment fetches failing exactly for the task `tErr`. -/
def env6 : Env :=
  { baseEnv with
    comments := fun _ t => if t.id = "t5" then .error err0 else .ok [cm0] }

/-- One project task, reload bumping the configuration generation. -/
def env8 : Env :=
  { baseEnv with
    tasksByProject := fun _ _ => .ok [tPlain]
    reload := fun c => .ok ⟨c.gen + 1⟩ }

/-- Quick-create failing exactly on the line "b". -/
def env9f : Env :=
  { baseEnv with
    quickCreate := fun _ l => if l = "b" then .error err0 else .ok () }

/-- File content with an empty line interspersed: three non-empty lines. -/
def content9 : String := "a\n\nb\nc"

/-- Filter fetch with one comment-carrying and one comment-failing task. -/
def env10 : Env :=
  { baseEnv with
    tasksByFilters := fun _ _ => .ok [("today", [tPlain, tErr])]
    comments := fun _ t => if t.id = "t5" then .error err0 else .ok [cm0] }

/-- The remaining fetch results after the failing head entry, in the C7
scenario. -/
def rest7 : List FetchResult := [Except.ok (tPlain, Except.ok [cm0])]

/-! Shared lemmas about the Sort Engine model and the walk loops. -/

theorem mem_insertByKey {k : Task → Int} {t u : Task} {ts : List Task} :
    u ∈ insertByKey k t ts ↔ u = t ∨ u ∈ ts := by
  induction ts with
  | nil => simp [insertByKey]
  | cons v vs ih =>
    simp only [insertByKey]
    split
    · simp
    · simp only [List.mem_cons, ih]
      tauto

theorem mem_tasks_sort {so : SortOrder} {ts : List Task} {u : Task} :
    u ∈ tasks_sort so ts ↔ u ∈ ts := by
  induction ts with
  | nil => simp [tasks_sort]
  | cons t ts ih => simp [tasks_sort, mem_insertByKey, ih]

theorem prioritizeWalk_call {env : Env} {cfg : Config} {ts : List Task}
    {hs : List Handle} {c : Config} {t : Task}
    (h : Event.setPriorityCall c t ∈ (prioritizeWalk env cfg ts hs).2) :
    c = cfg ∧ t ∈ ts := by
  induction ts generalizing hs with
  | nil => simp [prioritizeWalk] at h
  | cons u us ih =>
    cases hsp : env.setPriority cfg u true with
    | error e =>
      simp [prioritizeWalk, hsp] at h
      exact ⟨h.1, by simp [h.2]⟩
    | ok hh =>
      simp [prioritizeWalk, hsp] at h
      rcases h with ⟨h1, h2⟩ | h
      · exact ⟨h1, by simp [h2]⟩
      · obtain ⟨h1, h2⟩ := ih h
        exact ⟨h1, List.mem_cons_of_mem _ h2⟩

theorem labelWalk_call {env : Env} {cfg : Config} {labels : List String}
    {ts : List Task} {hs : List Handle} {c : Config} {t : Task} {ls : List String}
    (h : Event.labelCall c t ls ∈ (labelWalk env cfg labels ts hs).2) :
    c = cfg ∧ ls = labels ∧ t ∈ ts := by
  induction ts generalizing hs with
  | nil => simp [labelWalk] at h
  | cons u us ih =>
    cases hsp : env.labelTask cfg u labels with
    | error e =>
      simp [labelWalk, hsp] at h
      exact ⟨h.1, h.2.2, by simp [h.2.1]⟩
    | ok hh =>
      simp [labelWalk, hsp] at h
      rcases h with ⟨h1, h2, h3⟩ | h
      · exact ⟨h1, h3, by simp [h2]⟩
      · obtain ⟨h1, h2, h3⟩ := ih h
        exact ⟨h1, h2, List.mem_cons_of_mem _ h3⟩

theorem timeboxWalk_call {env : Env} {cfg : Config} {ts : List Task}
    {n : Int} {hs : List Handle} {c : Config} {t : Task}
    (h : Event.timeboxCall c t ∈ (timeboxWalk env cfg ts n hs).2) :
    env.reload cfg = .ok c ∧ t ∈ ts := by
  induction ts generalizing n hs with
  | nil => simp [timeboxWalk] at h
  | cons u us ih =>
    cases hr : env.reload cfg with
    | error e => simp [timeboxWalk, hr] at h
    | ok c2 =>
      cases ht : env.timeboxTask c2 u n false with
      | error e =>
        simp [timeboxWalk, hr, ht] at h
        exact ⟨by simp [h.1], by simp [h.2]⟩
      | ok o =>
        cases o with
        | none =>
          simp [timeboxWalk, hr, ht] at h
          exact ⟨by simp [h.1], by simp [h.2]⟩
        | some hh =>
          simp [timeboxWalk, hr, ht] at h
          rcases h with ⟨h1, h2⟩ | h
          · exact ⟨by simp [h1], by simp [h2]⟩
          · obtain ⟨h1, h2⟩ := ih h
            exact ⟨by rw [← hr]; exact h1, List.mem_cons_of_mem _ h2⟩

theorem processWalk_call {env : Env} {cfg : Config} {wp : Bool}
    {res : List FetchResult} {n : Int} {hs : List Handle}
    {c : Config} {t : Task} {cms : List Comment} {b : Bool}
    (h : Event.processCall c t cms b ∈ (processWalk env cfg wp res n hs).2) :
    env.reload cfg = .ok c ∧
      ((Except.ok (t, Except.ok cms) ∈ res ∧ b = wp) ∨
       (∃ e, Except.ok (t, Except.error e) ∈ res ∧ cms = [] ∧ b = false)) := by
  induction res generalizing n hs with
  | nil => simp [processWalk] at h
  | cons r rest ih =>
    rcases r with je | ⟨u, rc⟩
    · simp [processWalk] at h
      obtain ⟨h1, h2⟩ := ih h
      refine ⟨h1, ?_⟩
      rcases h2 with ⟨hm, hb⟩ | ⟨e, hm, hc, hb⟩
      · exact Or.inl ⟨List.mem_cons_of_mem _ hm, hb⟩
      · exact Or.inr ⟨e, List.mem_cons_of_mem _ hm, hc, hb⟩
    · cases rc with
      | error er =>
        cases hr : env.reload cfg with
        | error e => simp [processWalk, hr] at h
        | ok c2 =>
          cases hp : env.processTask [] c2 u n false with
          | error e =>
            simp [processWalk, hr, hp] at h
            obtain ⟨h1, h2, h3, h4⟩ := h
            exact ⟨by simp [h1],
              Or.inr ⟨er, by simp [h2], h3, h4⟩⟩
          | ok o =>
            cases o with
            | none =>
              simp [processWalk, hr, hp] at h
              obtain ⟨h1, h2, h3, h4⟩ := h
              exact ⟨by simp [h1],
                Or.inr ⟨er, by simp [h2], h3, h4⟩⟩
            | some hh =>
              simp [processWalk, hr, hp] at h
              rcases h with ⟨h1, h2, h3, h4⟩ | h
              · exact ⟨by simp [h1],
                  Or.inr ⟨er, by simp [h2], h3, h4⟩⟩
              · obtain ⟨h1, h2⟩ := ih h
                refine ⟨by rw [← hr]; exact h1, ?_⟩
                rcases h2 with ⟨hm, hb⟩ | ⟨e, hm, hc, hb⟩
                · exact Or.inl ⟨List.mem_cons_of_mem _ hm, hb⟩
                · exact Or.inr ⟨e, List.mem_cons_of_mem _ hm, hc, hb⟩
      | ok cs =>
        cases hr : env.reload cfg with
        | error e => simp [processWalk, hr] at h
        | ok c2 =>
          cases hp : env.processTask cs c2 u n wp with
          | error e =>
            simp [processWalk, hr, hp] at h
            obtain ⟨h1, h2, h3, h4⟩ := h
            exact ⟨by simp [h1],
              Or.inl ⟨by simp [h2, h3], h4⟩⟩
          | ok o =>
            cases o with
            | none =>
              simp [processWalk, hr, hp] at h
              obtain ⟨h1, h2, h3, h4⟩ := h
              exact ⟨by simp [h1],
                Or.inl ⟨by simp [h2, h3], h4⟩⟩
            | some hh =>
              simp [processWalk, hr, hp] at h
              rcases h with ⟨h1, h2, h3, h4⟩ | h
              · exact ⟨by simp [h1],
                  Or.inl ⟨by simp [h2, h3], h4⟩⟩
              · obtain ⟨h1, h2⟩ := ih h
                refine ⟨by rw [← hr]; exact h1, ?_⟩
                rcases h2 with ⟨hm, hb⟩ | ⟨e, hm, hc, hb⟩
                · exact Or.inl ⟨List.mem_cons_of_mem _ hm, hb⟩
                · exact Or.inr ⟨e, List.mem_cons_of_mem _ hm, hc, hb⟩

theorem fetch_comments_mem_ok {env : Env} {cfg : Config} {ts : List Task}
    {t : Task} {rc : Except Error (List Comment)}
    (h : Except.ok (t, rc) ∈ fetch_comments_for_tasks env cfg ts) :
    t ∈ ts ∧ rc = env.comments cfg t ∧ env.spawnOk t = true := by
  induction ts with
  | nil => simp [fetch_comments_for_tasks] at h
  | cons u us ih =>
    cases hsp : env.spawnOk u with
    | false =>
      simp [fetch_comments_for_tasks, hsp] at h
      obtain ⟨h1, h2, h3⟩ := ih h
      exact ⟨List.mem_cons_of_mem _ h1, h2, h3⟩
    | true =>
      simp [fetch_comments_for_tasks, hsp] at h
      rcases h with ⟨h1, h2⟩ | h
      · exact ⟨by simp [h1], by rw [h1]; exact h2, by rw [h1]; exact hsp⟩
      · obtain ⟨h1, h2, h3⟩ := ih h
        exact ⟨List.mem_cons_of_mem _ h1, h2, h3⟩

theorem fetch_comments_append {env : Env} {cfg : Config} {xs ys : List Task} :
    fetch_comments_for_tasks env cfg (xs ++ ys) =
      fetch_comments_for_tasks env cfg xs ++ fetch_comments_for_tasks env cfg ys := by
  induction xs with
  | nil => simp [fetch_comments_for_tasks]
  | cons x xs ih => simp [fetch_comments_for_tasks, ih]

theorem timeboxWalk_no_join {env : Env} {cfg : Config} {ts : List Task}
    {n : Int} {hs hs2 : List Handle} :
    Event.joinAll hs2 ∉ (timeboxWalk env cfg ts n hs).2 := by
  induction ts generalizing n hs with
  | nil => simp [timeboxWalk]
  | cons u us ih =>
    cases hr : env.reload cfg with
    | error e => simp [timeboxWalk, hr]
    | ok c2 =>
      cases ht : env.timeboxTask c2 u n false with
      | error e => simp [timeboxWalk, hr, ht]
      | ok o =>
        cases o with
        | none => simp [timeboxWalk, hr, ht]
        | some hh => simp [timeboxWalk, hr, ht, ih]

theorem processWalk_no_join {env : Env} {cfg : Config} {wp : Bool}
    {res : List FetchResult} {n : Int} {hs hs2 : List Handle} :
    Event.joinAll hs2 ∉ (processWalk env cfg wp res n hs).2 := by
  induction res generalizing n hs with
  | nil => simp [processWalk]
  | cons r rest ih =>
    rcases r with je | ⟨u, rc⟩
    · simp [processWalk, ih]
    · cases rc with
      | error er =>
        cases hr : env.reload cfg with
        | error e => simp [processWalk, hr]
        | ok c2 =>
          cases hp : env.processTask [] c2 u n false with
          | error e => simp [processWalk, hr, hp]
          | ok o =>
            cases o with
            | none => simp [processWalk, hr, hp]
            | some hh => simp [processWalk, hr, hp, ih]
      | ok cs =>
        cases hr : env.reload cfg with
        | error e => simp [processWalk, hr]
        | ok c2 =>
          cases hp : env.processTask cs c2 u n wp with
          | error e => simp [processWalk, hr, hp]
          | ok o =>
            cases o with
            | none => simp [processWalk, hr, hp]
            | some hh => simp [processWalk, hr, hp, ih]

theorem timeboxWalk_exit {env : Env} {cfg c : Config} {t : Task}
    (hr : env.reload cfg = .ok c)
    (hnone : ∀ n, env.timeboxTask c t n false = .ok Option.none) :
    ∀ ts1 ts2 : List Task, ∀ n : Int, ∀ hs : List Handle,
      (∀ u n2, u ∈ ts1 → ∃ h, env.timeboxTask c u n2 false = .ok (Option.some h)) →
      (timeboxWalk env cfg (ts1 ++ t :: ts2) n hs).1 = .ok .exited ∧
        ∀ c2 u, Event.timeboxCall c2 u ∈ (timeboxWalk env cfg (ts1 ++ t :: ts2) n hs).2 →
          u ∈ ts1 ++ [t] := by
  intro ts1 ts2
  induction ts1 with
  | nil =>
    intro n hs _
    constructor
    · simp [timeboxWalk, hr, hnone n]
    · intro c2 u hm
      simp [timeboxWalk, hr, hnone n] at hm
      simp [hm.2]
  | cons v vs ih =>
    intro n hs hsome
    obtain ⟨h0, hv0⟩ := hsome v n (List.mem_cons_self _ _)
    have hrec := ih (n - 1) (hs ++ [h0])
      (fun u n2 hu => hsome u n2 (List.mem_cons_of_mem _ hu))
    constructor
    · simpa [timeboxWalk, hr, hv0] using hrec.1
    · intro c2 u hm
      simp [timeboxWalk, hr, hv0] at hm
      rcases hm with ⟨hm1, hm2⟩ | hm
      · simp [hm2]
      · exact List.mem_cons_of_mem _ (hrec.2 c2 u hm)

theorem processWalk_exit {env : Env} {cfg c : Config} (wp : Bool) {t : Task}
    (hr : env.reload cfg = .ok c)
    (hst : env.spawnOk t = true)
    (hnone : ∀ cms n b, env.processTask cms c t n b = .ok Option.none) :
    ∀ ts1 ts2 : List Task, ∀ n : Int, ∀ hs : List Handle,
      (∀ u cms n2 b, u ∈ ts1 → ∃ h, env.processTask cms c u n2 b = .ok (Option.some h)) →
      (processWalk env cfg wp (fetch_comments_for_tasks env cfg (ts1 ++ t :: ts2)) n hs).1
          = .ok .exited ∧
        ∀ c2 u cms b,
          Event.processCall c2 u cms b ∈
              (processWalk env cfg wp (fetch_comments_for_tasks env cfg (ts1 ++ t :: ts2)) n hs).2 →
            u ∈ ts1 ++ [t] := by
  intro ts1 ts2
  induction ts1 with
  | nil =>
    intro n hs _
    cases hc : env.comments cfg t with
    | ok cms =>
      constructor
      · simp [fetch_comments_for_tasks, hst, hc, processWalk, hr, hnone]
      · intro c2 u cms2 b hm
        simp [fetch_comments_for_tasks, hst, hc, processWalk, hr, hnone] at hm
        simp [hm.2.1]
    | error er =>
      constructor
      · simp [fetch_comments_for_tasks, hst, hc, processWalk, hr, hnone]
      · intro c2 u cms2 b hm
        simp [fetch_comments_for_tasks, hst, hc, processWalk, hr, hnone] at hm
        simp [hm.2.1]
  | cons v vs ih =>
    intro n hs hsome
    have hsome' := fun u cms n2 b hu => hsome u cms n2 b (List.mem_cons_of_mem _ hu)
    cases hsv : env.spawnOk v with
    | false =>
      have hrec := ih n hs hsome'
      constructor
      · simpa [fetch_comments_for_tasks, hsv, processWalk] using hrec.1
      · intro c2 u cms b hm
        simp [fetch_comments_for_tasks, hsv, processWalk] at hm
        exact List.mem_cons_of_mem _ (hrec.2 c2 u cms b hm)
    | true =>
      cases hcv : env.comments cfg v with
      | ok cs =>
        obtain ⟨h0, hv0⟩ := hsome v cs n wp (List.mem_cons_self _ _)
        have hrec := ih (n - 1) (hs ++ [h0]) hsome'
        constructor
        · simpa [fetch_comments_for_tasks, hsv, hcv, processWalk, hr, hv0] using hrec.1
        · intro c2 u cms b hm
          simp [fetch_comments_for_tasks, hsv, hcv, processWalk, hr, hv0] at hm
          rcases hm with ⟨hm1, hm2, hm3, hm4⟩ | hm
          · simp [hm2]
          · exact List.mem_cons_of_mem _ (hrec.2 c2 u cms b hm)
      | error er =>
        obtain ⟨h0, hv0⟩ := hsome v [] n false (List.mem_cons_self _ _)
        have hrec := ih (n - 1) (hs ++ [h0]) hsome'
        constructor
        · simpa [fetch_comments_for_tasks, hsv, hcv, processWalk, hr, hv0] using hrec.1
        · intro c2 u cms b hm
          simp [fetch_comments_for_tasks, hsv, hcv, processWalk, hr, hv0] at hm
          rcases hm with ⟨hm1, hm2, hm3, hm4⟩ | hm
          · simp [hm2]
          · exact List.mem_cons_of_mem _ (hrec.2 c2 u cms b hm)

theorem importLines_ok {env : Env} {cfg : Config} :
    ∀ ls : List String, (∀ l ∈ ls, env.quickCreate cfg l = .ok ()) →
      importLines env cfg ls = (.ok (), ls.map Event.quickCreate) := by
  intro ls
  induction ls with
  | nil => intro _; simp [importLines]
  | cons l ls ih =>
    intro h
    have h1 := h l (List.mem_cons_self _ _)
    simp [importLines, h1, ih (fun x hx => h x (List.mem_cons_of_mem _ hx))]

theorem importLines_fail {env : Env} {cfg : Config} {l : String} {e : Error}
    (h2 : env.quickCreate cfg l = .error e) :
    ∀ ls1 ls2 : List String, (∀ x ∈ ls1, env.quickCreate cfg x = .ok ()) →
      importLines env cfg (ls1 ++ l :: ls2) =
        (.error e, (ls1 ++ [l]).map Event.quickCreate) := by
  intro ls1
  induction ls1 with
  | nil =>
    intro ls2 _
    simp [importLines, h2]
  | cons x xs ih =>
    intro ls2 h
    have hx := h x (List.mem_cons_self _ _)
    simp [importLines, hx, ih ls2 (fun y hy => h y (List.mem_cons_of_mem _ hy))]

theorem setPriorityCall_ne_fetchEvent {c : Config} {t : Task} {flag : Flag} :
    Event.setPriorityCall c t ≠ fetchEvent flag := by
  cases flag <;> simp [fetchEvent]

theorem labelCall_ne_fetchEvent {c : Config} {t : Task} {ls : List String} {flag : Flag} :
    Event.labelCall c t ls ≠ fetchEvent flag := by
  cases flag <;> simp [fetchEvent]

theorem timeboxCall_ne_fetchEvent {c : Config} {t : Task} {flag : Flag} :
    Event.timeboxCall c t ≠ fetchEvent flag := by
  cases flag <;> simp [fetchEvent]

theorem processCall_ne_fetchEvent {c : Config} {t : Task} {cms : List Comment}
    {b : Bool} {flag : Flag} : Event.processCall c t cms b ≠ fetchEvent flag := by
  cases flag <;> simp [fetchEvent]

theorem joinAll_ne_fetchEvent {hs : List Handle} {flag : Flag} :
    Event.joinAll hs ≠ fetchEvent flag := by
  cases flag <;> simp [fetchEvent]

theorem prioritize_call_spec {env : Env} {cfg : Config} {flag : Flag} {so : SortOrder}
    {c : Config} {t : Task}
    (hmem : Event.setPriorityCall c t ∈ (prioritize env cfg flag so).2) :
    c = cfg ∧ ∃ ts, prioritizeTasks env cfg flag = .ok ts ∧ t ∈ ts := by
  cases hpt : prioritizeTasks env cfg flag with
  | error e => simp [prioritize, hpt, setPriorityCall_ne_fetchEvent] at hmem
  | ok ts =>
    by_cases hemp : ts.isEmpty
    · simp [prioritize, hpt, hemp, setPriorityCall_ne_fetchEvent] at hmem
    · rcases hw : prioritizeWalk env cfg (tasks_sort so ts) [] with ⟨o, evs⟩
      have hmem2 : Event.setPriorityCall c t ∈ evs := by
        cases o with
        | error e =>
          simpa [prioritize, hpt, hemp, hw, setPriorityCall_ne_fetchEvent] using hmem
        | ok hs2 =>
          simpa [prioritize, hpt, hemp, hw, setPriorityCall_ne_fetchEvent] using hmem
      have hmem3 : Event.setPriorityCall c t ∈ (prioritizeWalk env cfg (tasks_sort so ts) []).2 := by
        rw [hw]; exact hmem2
      obtain ⟨h1, h2⟩ := prioritizeWalk_call hmem3
      exact ⟨h1, ts, rfl, mem_tasks_sort.mp h2⟩

theorem label_call_spec {env : Env} {cfg : Config} {flag : Flag} {labels : List String}
    {so : SortOrder} {c : Config} {t : Task} {ls : List String}
    (hmem : Event.labelCall c t ls ∈ (label env cfg flag labels so).2) :
    c = cfg ∧ ls = labels ∧ ∃ ts, labelTasksOf env cfg flag = .ok ts ∧ t ∈ ts := by
  cases hpt : labelTasksOf env cfg flag with
  | error e => simp [label, hpt, labelCall_ne_fetchEvent] at hmem
  | ok ts =>
    by_cases hemp : ts.isEmpty
    · simp [label, hpt, hemp, labelCall_ne_fetchEvent] at hmem
    · rcases hw : labelWalk env cfg labels (tasks_sort so ts) [] with ⟨o, evs⟩
      have hmem2 : Event.labelCall c t ls ∈ evs := by
        cases o with
        | error e =>
          simpa [label, hpt, hemp, hw, labelCall_ne_fetchEvent] using hmem
        | ok hs2 =>
          simpa [label, hpt, hemp, hw, labelCall_ne_fetchEvent] using hmem
      have hmem3 : Event.labelCall c t ls ∈ (labelWalk env cfg labels (tasks_sort so ts) []).2 := by
        rw [hw]; exact hmem2
      obtain ⟨h1, h2, h3⟩ := labelWalk_call hmem3
      exact ⟨h1, h2, ts, rfl, mem_tasks_sort.mp h3⟩

theorem timebox_call_spec {env : Env} {cfg : Config} {flag : Flag} {so : SortOrder}
    {c : Config} {t : Task}
    (hmem : Event.timeboxCall c t ∈ (timebox env cfg flag so).2) :
    env.reload cfg = .ok c ∧ ∃ ts, timeboxTasks env cfg flag = .ok ts ∧ t ∈ ts := by
  cases hpt : timeboxTasks env cfg flag with
  | error e => simp [timebox, hpt, timeboxCall_ne_fetchEvent] at hmem
  | ok ts =>
    by_cases hemp : ts.isEmpty
    · simp [timebox, hpt, hemp, timeboxCall_ne_fetchEvent] at hmem
    · rcases hw : timeboxWalk env cfg (tasks_sort so ts)
          (((tasks_sort so ts).length : Int)) [] with ⟨o, evs⟩
      have hmem2 : Event.timeboxCall c t ∈ evs := by
        cases o with
        | error e =>
          simpa [timebox, hpt, hemp, hw, timeboxCall_ne_fetchEvent] using hmem
        | ok w =>
          cases w with
          | exited =>
            simpa [timebox, hpt, hemp, hw, timeboxCall_ne_fetchEvent] using hmem
          | completed hs2 =>
            simpa [timebox, hpt, hemp, hw, timeboxCall_ne_fetchEvent] using hmem
      have hmem3 : Event.timeboxCall c t ∈
          (timeboxWalk env cfg (tasks_sort so ts) (((tasks_sort so ts).length : Int)) []).2 := by
        rw [hw]; exact hmem2
      obtain ⟨h1, h2⟩ := timeboxWalk_call hmem3
      exact ⟨h1, ts, rfl, mem_tasks_sort.mp h2⟩

theorem process_call_spec {env : Env} {cfg : Config} {flag : Flag} {so : SortOrder}
    {c : Config} {t : Task} {cms : List Comment} {b : Bool}
    (hmem : Event.processCall c t cms b ∈ (process env cfg flag so).2) :
    env.reload cfg = .ok c ∧
      (∃ ts, processTasks env cfg flag = .ok ts ∧ t ∈ ts) ∧
      ((env.comments cfg t = .ok cms ∧ b = processWithProject flag) ∨
       (∃ e, env.comments cfg t = .error e ∧ cms = [] ∧ b = false)) := by
  cases hpt : processTasks env cfg flag with
  | error e => simp [process, hpt, processCall_ne_fetchEvent] at hmem
  | ok ts =>
    by_cases hemp : ts.isEmpty
    · simp [process, hpt, hemp, processCall_ne_fetchEvent] at hmem
    · rcases hw : processWalk env cfg (processWithProject flag)
          (fetch_comments_for_tasks env cfg (tasks_sort so ts))
          (((tasks_sort so ts).length : Int)) [] with ⟨o, evs⟩
      have hmem2 : Event.processCall c t cms b ∈ evs := by
        cases o with
        | error e =>
          simpa [process, hpt, hemp, hw, processCall_ne_fetchEvent] using hmem
        | ok w =>
          cases w with
          | exited =>
            simpa [process, hpt, hemp, hw, processCall_ne_fetchEvent] using hmem
          | completed hs2 =>
            simpa [process, hpt, hemp, hw, processCall_ne_fetchEvent] using hmem
      have hmem3 : Event.processCall c t cms b ∈
          (processWalk env cfg (processWithProject flag)
            (fetch_comments_for_tasks env cfg (tasks_sort so ts))
            (((tasks_sort so ts).length : Int)) []).2 := by
        rw [hw]; exact hmem2
      obtain ⟨hc, hdisj⟩ := processWalk_call hmem3
      refine ⟨hc, ?_, ?_⟩
      · rcases hdisj with ⟨hentry, _⟩ | ⟨e, hentry, _, _⟩
        · exact ⟨ts, rfl, mem_tasks_sort.mp (fetch_comments_mem_ok hentry).1⟩
        · exact ⟨ts, rfl, mem_tasks_sort.mp (fetch_comments_mem_ok hentry).1⟩
      · rcases hdisj with ⟨hentry, hb⟩ | ⟨e, hentry, hcms, hb⟩
        · obtain ⟨_, hrc, _⟩ := fetch_comments_mem_ok hentry
          exact Or.inl ⟨hrc.symm, hb⟩
        · obtain ⟨_, hrc, _⟩ := fetch_comments_mem_ok hentry
          exact Or.inr ⟨e, hrc.symm, hcms, hb⟩

/-! Claim theorems. -/

/-- C4 counterexample: `view` has no empty-set short-circuit — for a project
whose fetched task list is empty it returns the group-header buffer, not the
"No tasks for" message. -/
theorem view_empty_no_message :
    viewFetch baseEnv cfg0 (Flag.project proj0) = .ok [("myproject", [])] ∧
      (view baseEnv cfg0 (Flag.project proj0) so0).1 = .ok "\nTasks for myproject\n" ∧
      (view baseEnv cfg0 (Flag.project proj0) so0).1 ≠
        .ok (green_string ("No tasks for " ++ (Flag.project proj0).display)) :=
  ⟨rfl, by decide, by decide⟩

/-- C4 (amended): with an empty post-filter task set, `prioritize`,
`timebox`, `process` and `label` return exactly the "No tasks for" message
and produce no effect beyond the single fetch; `view` lacks this
short-circuit (see the counterexample). -/
theorem empty_set_short_circuit :
    ∀ env cfg flag so labels,
      (prioritizeTasks env cfg flag = .ok [] →
        prioritize env cfg flag so =
          (.ok (green_string ("No tasks for " ++ flag.display)), [fetchEvent flag])) ∧
      (timeboxTasks env cfg flag = .ok [] →
        timebox env cfg flag so =
          (.ok (green_string ("No tasks for " ++ flag.display)), [fetchEvent flag])) ∧
      (processTasks env cfg flag = .ok [] →
        process env cfg flag so =
          (.ok (green_string ("No tasks for " ++ flag.display)), [fetchEvent flag])) ∧
      (labelTasksOf env cfg flag = .ok [] →
        label env cfg flag labels so =
          (.ok (green_string ("No tasks for " ++ flag.display)), [fetchEvent flag])) := by
  intro env cfg flag so labels
  refine ⟨fun h => ?_, fun h => ?_, fun h => ?_, fun h => ?_⟩
  · simp [prioritize, h]
  · simp [timebox, h]
  · simp [process, h]
  · simp [label, h]

/-- C4 witness: the base environment fetches no tasks, and all four
operations short-circuit with the message and the lone fetch event. -/
theorem empty_set_short_circuit_witness :
    prioritize baseEnv cfg0 (Flag.project proj0) so0 =
        (.ok (green_string ("No tasks for " ++ (Flag.project proj0).display)),
          [fetchEvent (Flag.project proj0)]) ∧
      timebox baseEnv cfg0 (Flag.project proj0) so0 =
        (.ok (green_string ("No tasks for " ++ (Flag.project proj0).display)),
          [fetchEvent (Flag.project proj0)]) ∧
      process baseEnv cfg0 (Flag.project proj0) so0 =
        (.ok (green_string ("No tasks for " ++ (Flag.project proj0).display)),
          [fetchEvent (Flag.project proj0)]) ∧
      label baseEnv cfg0 (Flag.project proj0) [] so0 =
        (.ok (green_string ("No tasks for " ++ (Flag.project proj0).display)),
          [fetchEvent (Flag.project proj0)]) :=
  have h := empty_set_short_circuit baseEnv cfg0 (Flag.project proj0) so0 []
  ⟨h.1 rfl, h.2.1 rfl, h.2.2.1 rfl, h.2.2.2 rfl⟩

/-- C8 counterexample: `prioritize` passes the operation's original
configuration to every walked task even though a reload yields a different
configuration — the configuration is not re-read before each task. -/
theorem prioritize_no_reload :
    env8.reload cfg0 = .ok cfg1 ∧ cfg1 ≠ cfg0 ∧
      (prioritize env8 cfg0 (Flag.project proj0) so0).2 =
        [Event.fetchProject proj0, Event.setPriorityCall cfg0 tPlain, Event.joinAll [⟨1⟩]] :=
  ⟨rfl, by decide, by decide⟩

/-- C8 (amended): only `timebox` and `process` reload the configuration
before each walked task (reloading the operation's original configuration);
`prioritize` and `label` pass the original configuration unchanged. -/
theorem config_reload_only_timebox_process :
    (∀ env cfg flag so c t,
        Event.setPriorityCall c t ∈ (prioritize env cfg flag so).2 → c = cfg) ∧
    (∀ env cfg flag labels so c t ls,
        Event.labelCall c t ls ∈ (label env cfg flag labels so).2 → c = cfg) ∧
    (∀ env cfg flag so c t,
        Event.timeboxCall c t ∈ (timebox env cfg flag so).2 → env.reload cfg = .ok c) ∧
    (∀ env cfg flag so c t cms b,
        Event.processCall c t cms b ∈ (process env cfg flag so).2 →
          env.reload cfg = .ok c) := by
  refine ⟨?_, ?_, ?_, ?_⟩
  · intro env cfg flag so c t hmem
    exact (prioritize_call_spec hmem).1
  · intro env cfg flag labels so c t ls hmem
    exact (label_call_spec hmem).1
  · intro env cfg flag so c t hmem
    exact (timebox_call_spec hmem).1
  · intro env cfg flag so c t cms b hmem
    exact (process_call_spec hmem).1

/-- C8 witness: under a generation-bumping reload, the walked configurations
are the original one for `prioritize` and `label` and the reloaded one for
`timebox` and `process`. -/
theorem config_reload_only_timebox_process_witness :
    cfg0 = cfg0 ∧ cfg0 = cfg0 ∧
      env8.reload cfg0 = .ok cfg1 ∧ env8.reload cfg0 = .ok cfg1 :=
  ⟨config_reload_only_timebox_process.1 env8 cfg0 (Flag.project proj0) so0 cfg0 tPlain
      (by decide),
   config_reload_only_timebox_process.2.1 env8 cfg0 (Flag.project proj0) [] so0 cfg0 tPlain []
      (by decide),
   config_reload_only_timebox_process.2.2.1 env8 cfg0 (Flag.project proj0) so0 cfg1 tPlain
      (by decide),
   config_reload_only_timebox_process.2.2.2 env8 cfg0 (Flag.project proj0) so0 cfg1 tPlain [] false
      (by decide)⟩

/-- C6: the Concurrent Comment Fetcher returns exactly one result per input
task, in input order: the i-th result pairs the i-th task with that task's
fetch outcome (or is the i-th spawned unit's join error), independently of
which fetches fail. -/
theorem fetcher_one_result_per_task :
    ∀ env cfg ts,
      (fetch_comments_for_tasks env cfg ts).length = ts.length ∧
      ∀ (i : Nat) (t : Task), ts[i]? = some t →
        (fetch_comments_for_tasks env cfg ts)[i]? =
          some (if env.spawnOk t then Except.ok (t, env.comments cfg t)
                else Except.error ()) := by
  intro env cfg ts
  induction ts with
  | nil =>
    refine ⟨rfl, ?_⟩
    intro i t h
    simp at h
  | cons u us ih =>
    refine ⟨by simpa [fetch_comments_for_tasks] using ih.1, ?_⟩
    intro i t h
    cases i with
    | zero =>
      simp at h
      subst h
      simp [fetch_comments_for_tasks]
    | succ j =>
      simp at h
      simpa [fetch_comments_for_tasks] using ih.2 j t h

/-- C6 witness: on a two-task input with the second fetch failing, the
output has length two and its second entry is the second task paired with
its (failing) fetch outcome. -/
theorem fetcher_one_result_per_task_witness :
    (fetch_comments_for_tasks env6 cfg0 [tPlain, tErr]).length = 2 ∧
      (fetch_comments_for_tasks env6 cfg0 [tPlain, tErr])[1]? =
        some (if env6.spawnOk tErr then Except.ok (tErr, env6.comments cfg0 tErr)
              else Except.error ()) :=
  ⟨(fetcher_one_result_per_task env6 cfg0 [tPlain, tErr]).1,
   (fetcher_one_result_per_task env6 cfg0 [tPlain, tErr]).2 1 tErr rfl⟩

/-- C7: in the `process` walk, a comment-fetch application error neither
aborts nor skips the task: the diagnostic naming the error's source and
message is printed, the task is walked with an empty comment set, and the
walk continues with the remaining results. -/
theorem process_fetch_error_not_fatal :
    ∀ env cfg wp t e rest n hs c h,
      env.reload cfg = .ok c →
      env.processTask [] c t n false = .ok (Option.some h) →
      processWalk env cfg wp (Except.ok (t, Except.error e) :: rest) n hs =
          ((processWalk env cfg wp rest (n - 1) (hs ++ [h])).1,
            Event.printDiag (diagMsg e) :: Event.processCall c t [] false ::
              (processWalk env cfg wp rest (n - 1) (hs ++ [h])).2) ∧
        diagMsg e = "Could not fetch comments from " ++ e.source ++ ": " ++ e.message := by
  intro env cfg wp t e rest n hs c h hr hp
  exact ⟨by simp [processWalk, hr, hp], rfl⟩

/-- C7 witness: a concrete failing fetch result is walked with no comments
after the printed diagnostic, and the remaining result is still processed. -/
theorem process_fetch_error_not_fatal_witness :
    processWalk env6 cfg0 true (Except.ok (tErr, Except.error err0) :: rest7) 2 [] =
        ((processWalk env6 cfg0 true rest7 (2 - 1) ([] ++ [⟨3⟩])).1,
          Event.printDiag (diagMsg err0) :: Event.processCall cfg0 tErr [] false ::
            (processWalk env6 cfg0 true rest7 (2 - 1) ([] ++ [⟨3⟩])).2) ∧
      diagMsg err0 = "Could not fetch comments from " ++ err0.source ++ ": " ++ err0.message :=
  process_fetch_error_not_fatal env6 cfg0 true tErr err0 rest7 2 [] cfg0 ⟨3⟩ rfl rfl


/-- C1 counterexample: with a filter selector `prioritize` does not filter by
priority — a task whose priority is High is walked. -/
theorem prioritize_filter_prioritized_walked :
    tHigh.priority ≠ Priority.none ∧
      Event.setPriorityCall cfg0 tHigh ∈ (prioritize env1 cfg0 (Flag.filter "today") so0).2 :=
  ⟨by decide, by decide⟩

/-- C1 (amended): the priority pre-filter of `prioritize` applies only to the
project selector — every task walked under a project selector has unset
priority — while the filter selector walks the flattened groups with no
priority filtering. -/
theorem prioritize_unset_priority_project_only :
    (∀ env cfg p so c t,
        Event.setPriorityCall c t ∈ (prioritize env cfg (Flag.project p) so).2 →
          t.priority = Priority.none) ∧
    (∀ env cfg f gs, env.tasksByFilters cfg f = .ok gs →
        prioritizeTasks env cfg (Flag.filter f) = .ok (flattenGroups gs)) := by
  constructor
  · intro env cfg p so c t hmem
    obtain ⟨_, ts, hpt, hts⟩ := prioritize_call_spec hmem
    cases hfp : env.tasksByProject cfg p with
    | error e => simp [prioritizeTasks, hfp] at hpt
    | ok ts0 =>
      simp [prioritizeTasks, hfp] at hpt
      subst hpt
      simp [List.mem_filter] at hts
      exact hts.2
  · intro env cfg f gs h
    simp [prioritizeTasks, h]

/-- C1 witness: an unprioritized task walked under a project selector indeed
has unset priority, and a concrete filter fetch passes through unfiltered. -/
theorem prioritize_unset_priority_project_only_witness :
    tPlain.priority = Priority.none ∧
      prioritizeTasks env1 cfg0 (Flag.filter "today") = .ok (flattenGroups [("today", [tHigh])]) :=
  ⟨prioritize_unset_priority_project_only.1 envP1 cfg0 proj0 so0 cfg0 tPlain (by decide),
   prioritize_unset_priority_project_only.2 env1 cfg0 "today" [("today", [tHigh])] rfl⟩

/-- C2 counterexample: with a filter selector `timebox` does not filter by
duration — a task that already has a duration is walked. -/
theorem timebox_filter_duration_walked :
    tDur.duration ≠ Option.none ∧
      Event.timeboxCall cfg0 tDur ∈ (timebox env2 cfg0 (Flag.filter "today") so0).2 :=
  ⟨by decide, by decide⟩

/-- C2 (amended): the duration pre-filter of `timebox` applies only to the
project selector — every task walked under a project selector has no assigned
duration — while the filter selector walks the flattened groups with no
duration filtering. -/
theorem timebox_no_duration_project_only :
    (∀ env cfg p so c t,
        Event.timeboxCall c t ∈ (timebox env cfg (Flag.project p) so).2 →
          t.duration = Option.none) ∧
    (∀ env cfg f gs, env.tasksByFilters cfg f = .ok gs →
        timeboxTasks env cfg (Flag.filter f) = .ok (flattenGroups gs)) := by
  constructor
  · intro env cfg p so c t hmem
    obtain ⟨_, ts, hpt, hts⟩ := timebox_call_spec hmem
    cases hfp : env.tasksByProject cfg p with
    | error e => simp [timeboxTasks, hfp] at hpt
    | ok ts0 =>
      simp [timeboxTasks, hfp] at hpt
      subst hpt
      simp [List.mem_filter, Option.isNone_iff_eq_none] at hts
      exact hts.2
  · intro env cfg f gs h
    simp [timeboxTasks, h]

/-- C2 witness: a duration-free task walked under a project selector indeed
has no duration, and a concrete filter fetch passes through unfiltered. -/
theorem timebox_no_duration_project_only_witness :
    tPlain.duration = Option.none ∧
      timeboxTasks env2 cfg0 (Flag.filter "today") = .ok (flattenGroups [("today", [tDur])]) :=
  ⟨timebox_no_duration_project_only.1 envP2 cfg0 proj0 so0 cfg0 tPlain (by decide),
   timebox_no_duration_project_only.2 env2 cfg0 "today" [("today", [tDur])] rfl⟩

/-- C3 counterexample: with a filter selector `process` does not apply the
future-date filter — a task scheduled for a future date is walked. -/
theorem process_filter_future_walked :
    notInFuture env3.today tFut = false ∧
      Event.processCall cfg0 tFut [] true ∈ (process env3 cfg0 (Flag.filter "today") so0).2 :=
  ⟨by decide, by decide⟩

/-- C3 (amended): `process` rejects parent-referenced tasks for every
selector before sorting, but the future-date filter applies only to the
project selector. -/
theorem process_filters_project_only :
    (∀ env cfg flag so ts c t cms b,
        processBranch env cfg flag = .ok ts →
        Event.processCall c t cms b ∈ (process env cfg flag so).2 →
          t ∈ ts ∧ ∀ u ∈ ts, u.parentId ≠ Option.some t.id) ∧
    (∀ env cfg p so c t cms b,
        Event.processCall c t cms b ∈ (process env cfg (Flag.project p) so).2 →
          notInFuture env.today t = true) := by
  constructor
  · intro env cfg flag so ts c t cms b hbr hmem
    obtain ⟨_, ⟨ts2, hpt, hts⟩, _⟩ := process_call_spec hmem
    have hpt2 : processTasks env cfg flag = .ok (reject_parent_tasks ts) := by
      simp [processTasks, hbr]
    rw [hpt2] at hpt
    injection hpt with h
    subst h
    refine ⟨(List.mem_filter.mp hts).1, ?_⟩
    intro u hu hequ
    have h2 := (List.mem_filter.mp hts).2
    simp at h2
    exact h2 u hu hequ
  · intro env cfg p so c t cms b hmem
    cases hfp : env.tasksByProject cfg p with
    | error e =>
      simp [process, processTasks, processBranch, hfp, processCall_ne_fetchEvent] at hmem
    | ok ts0 =>
      have hbr : processBranch env cfg (Flag.project p)
          = .ok (filter_not_in_future env.today ts0) := by
        simp [processBranch, hfp]
      obtain ⟨_, ⟨ts2, hpt, hts⟩, _⟩ := process_call_spec hmem
      have hpt2 : processTasks env cfg (Flag.project p)
          = .ok (reject_parent_tasks (filter_not_in_future env.today ts0)) := by
        simp [processTasks, hbr]
      rw [hpt2] at hpt
      injection hpt with h
      subst h
      have ht0 : t ∈ filter_not_in_future env.today ts0 := (List.mem_filter.mp hts).1
      exact (List.mem_filter.mp ht0).2

/-- C3 witness: under a project selector a walked task is in the branch set
and passes the future-date filter. -/
theorem process_filters_project_only_witness :
    tPlain ∈ [tPlain] ∧ notInFuture envP3.today tPlain = true :=
  ⟨(process_filters_project_only.1 envP3 cfg0 (Flag.project proj0) so0 [tPlain]
      cfg0 tPlain [] false rfl (by decide)).1,
   process_filters_project_only.2 envP3 cfg0 proj0 so0 cfg0 tPlain [] false (by decide)⟩

/-- C9: the importer issues exactly one quick-create call per non-empty
line, in file order, awaiting each before the next; on full success it
returns the confirmation token, and a failing call aborts the import,
surfaces that gateway error, and issues no further calls. -/
theorem import_sequential_quick_create :
    ∀ env cfg content,
      ((∀ l ∈ nonEmptyLines content, env.quickCreate cfg l = .ok ()) →
        importTasks env cfg content =
          (.ok "✓", (nonEmptyLines content).map Event.quickCreate)) ∧
      (∀ ls1 l ls2 e, nonEmptyLines content = ls1 ++ l :: ls2 →
        (∀ x ∈ ls1, env.quickCreate cfg x = .ok ()) →
        env.quickCreate cfg l = .error e →
        importTasks env cfg content = (.error e, (ls1 ++ [l]).map Event.quickCreate)) := by
  intro env cfg content
  constructor
  · intro h
    have heq := importLines_ok (nonEmptyLines content) h
    simp [importTasks, heq]
  · intro ls1 l ls2 e hdec h1 h2
    have heq := importLines_fail h2 ls1 ls2 h1
    simp [importTasks, hdec, heq]

/-- C9 witness: a file with three non-empty lines and a blank line issues
the three quick-create calls in order and returns the token; with the second
line failing, only the first two calls are issued and the error surfaces. -/
theorem import_sequential_quick_create_witness :
    importTasks baseEnv cfg0 content9 =
        (.ok "✓", (nonEmptyLines content9).map Event.quickCreate) ∧
      importTasks env9f cfg0 content9 =
        (.error err0, (["a"] ++ ["b"]).map Event.quickCreate) :=
  ⟨(import_sequential_quick_create baseEnv cfg0 content9).1 (fun l _ => rfl),
   (import_sequential_quick_create env9f cfg0 content9).2 ["a"] "b" ["c"] err0 (by decide)
     (by intro x hx; simp at hx; subst hx; decide) (by decide)⟩

/-- C10: in `process` with a filter selector, the show-project flag passed
to the walker tracks the comment fetch: a task whose comments were fetched
is walked with the flag true, while a task whose fetch returned an
application error is walked with the flag false and no comments. -/
theorem process_show_project_tracks_fetch :
    ∀ env cfg f so c t cms b,
      Event.processCall c t cms b ∈ (process env cfg (Flag.filter f) so).2 →
        (env.comments cfg t = .ok cms ∧ b = true) ∨
        (∃ e, env.comments cfg t = .error e ∧ cms = [] ∧ b = false) := by
  intro env cfg f so c t cms b hmem
  have h := (process_call_spec hmem).2.2
  simpa [processWithProject] using h

/-- C10 witness: in a filter run with one fetch succeeding and one failing,
the task walked with the flag true is exactly the one whose fetch
succeeded. -/
theorem process_show_project_tracks_fetch_witness :
    env10.comments cfg0 tPlain = .ok [cm0] := by
  have h := process_show_project_tracks_fetch env10 cfg0 "today" so0 cfg0 tPlain [cm0] true
    (by decide)
  rcases h with ⟨h1, _⟩ | ⟨e, _, _, hb⟩
  · exact h1
  · cases hb

/-- C5: a `None` sentinel from the walker at some task aborts the run for
both `timebox` and `process`: the operation returns exactly the "Exited"
message, no task after the aborting one is presented to the walker, and the
queued mutation handles are never joined. -/
theorem walker_none_aborts_run :
    (∀ env cfg flag so ts0 ts1 t ts2 c,
      timeboxTasks env cfg flag = .ok ts0 →
      tasks_sort so ts0 = ts1 ++ t :: ts2 →
      env.reload cfg = .ok c →
      (∀ n, env.timeboxTask c t n false = .ok Option.none) →
      (∀ u n2, u ∈ ts1 → ∃ h, env.timeboxTask c u n2 false = .ok (Option.some h)) →
        (timebox env cfg flag so).1 = .ok (green_string "Exited") ∧
        (∀ c2 u, Event.timeboxCall c2 u ∈ (timebox env cfg flag so).2 → u ∈ ts1 ++ [t]) ∧
        (∀ hs, Event.joinAll hs ∉ (timebox env cfg flag so).2)) ∧
    (∀ env cfg flag so ts0 ts1 t ts2 c,
      processTasks env cfg flag = .ok ts0 →
      tasks_sort so ts0 = ts1 ++ t :: ts2 →
      env.reload cfg = .ok c →
      env.spawnOk t = true →
      (∀ cms n b, env.processTask cms c t n b = .ok Option.none) →
      (∀ u cms n2 b, u ∈ ts1 → ∃ h, env.processTask cms c u n2 b = .ok (Option.some h)) →
        (process env cfg flag so).1 = .ok (green_string "Exited") ∧
        (∀ c2 u cms b,
          Event.processCall c2 u cms b ∈ (process env cfg flag so).2 → u ∈ ts1 ++ [t]) ∧
        (∀ hs, Event.joinAll hs ∉ (process env cfg flag so).2)) := by
  constructor
  · intro env cfg flag so ts0 ts1 t ts2 c hts hsort hr hnone hsome
    have hne : ¬ts0.isEmpty := by
      have hmemt : t ∈ ts0 := mem_tasks_sort.mp (by rw [hsort]; simp)
      cases ts0 with
      | nil => simp at hmemt
      | cons a as => simp
    have hex := timeboxWalk_exit hr hnone ts1 ts2 ((tasks_sort so ts0).length : Int) [] hsome
    rw [← hsort] at hex
    rcases hw : timeboxWalk env cfg (tasks_sort so ts0)
        (((tasks_sort so ts0).length : Int)) [] with ⟨o, evs⟩
    obtain ⟨hex1, hex2⟩ := hex
    rw [hw] at hex1
    simp at hex1
    subst hex1
    have htb : timebox env cfg flag so = (.ok (green_string "Exited"), fetchEvent flag :: evs) := by
      simp [timebox, hts, hne, hw]
    refine ⟨by rw [htb], ?_, ?_⟩
    · intro c2 u hm
      rw [htb] at hm
      simp [timeboxCall_ne_fetchEvent] at hm
      exact hex2 c2 u (by rw [hw]; exact hm)
    · intro hs hm
      rw [htb] at hm
      simp [joinAll_ne_fetchEvent] at hm
      exact timeboxWalk_no_join (by rw [hw]; exact hm)
  · intro env cfg flag so ts0 ts1 t ts2 c hts hsort hr hst hnone hsome
    have hne : ¬ts0.isEmpty := by
      have hmemt : t ∈ ts0 := mem_tasks_sort.mp (by rw [hsort]; simp)
      cases ts0 with
      | nil => simp at hmemt
      | cons a as => simp
    have hex := processWalk_exit (processWithProject flag) hr hst hnone ts1 ts2 ((tasks_sort so ts0).length : Int) [] hsome
    rw [← hsort] at hex
    rcases hw : processWalk env cfg (processWithProject flag)
        (fetch_comments_for_tasks env cfg (tasks_sort so ts0))
        (((tasks_sort so ts0).length : Int)) [] with ⟨o, evs⟩
    obtain ⟨hex1, hex2⟩ := hex
    rw [hw] at hex1
    simp at hex1
    subst hex1
    have htb : process env cfg flag so =
        (.ok (green_string "Exited"),
          (fetchEvent flag :: (tasks_sort so ts0).map Event.fetchComments) ++ evs) := by
      simp [process, hts, hne, hw]
    refine ⟨by rw [htb], ?_, ?_⟩
    · intro c2 u cms b hm
      rw [htb] at hm
      simp [processCall_ne_fetchEvent] at hm
      exact hex2 c2 u cms b (by rw [hw]; exact hm)
    · intro hs hm
      rw [htb] at hm
      simp [joinAll_ne_fetchEvent] at hm
      exact processWalk_no_join (by rw [hw]; exact hm)

/-- C5 witness: with three tasks and the walkers aborting on the second,
both `timebox` and `process` return exactly the "Exited" message. -/
theorem walker_none_aborts_run_witness :
    (timebox env5 cfg0 (Flag.project proj0) so0).1 = .ok (green_string "Exited") ∧
      (process env5 cfg0 (Flag.project proj0) so0).1 = .ok (green_string "Exited") :=
  ⟨(walker_none_aborts_run.1 env5 cfg0 (Flag.project proj0) so0 [tA, tB, tC] [tA] tB [tC] cfg0
      (by decide) (by decide) rfl (fun n => rfl)
      (fun u n2 hu => by simp at hu; subst hu; exact ⟨⟨2⟩, rfl⟩)).1,
   (walker_none_aborts_run.2 env5 cfg0 (Flag.project proj0) so0 [tA, tB, tC] [tA] tB [tC] cfg0
      (by decide) (by decide) rfl rfl (fun cms n b => rfl)
      (fun u cms n2 b hu => by simp at hu; subst hu; exact ⟨⟨3⟩, rfl⟩)).1⟩

end Tod
